import Mathlib

/-
Verification development for the `RayRenderer` component
(src/src/ray-renderer.js of beemsoft/webvr-physics).

Shallow embedding choices:
* Vector/quaternion components are exact rationals (the JS code computes with
  floats; we verify the exact arithmetic the formulas denote).
* `THREE.Vector3`, `THREE.Quaternion` operations used by the code are embedded
  by their documented component formulas.
* The raycaster intersection test (`raycaster.intersectObject(mesh, true)`) is
  an external collaborator; an update cycle is parametrized by a function
  `Mesh → List ℚ` returning the ordered list of hit distances (nearest first),
  exactly the data the code reads from the result.
* The camera is the external capability `setFromCamera` consults: it is
  embedded as the function from screen coordinates to the (origin, direction)
  pair it writes into the raycaster ray.
* Callbacks are opaque: a handler record stores presence flags, and every
  callback invocation / event emission performed by the code is recorded in an
  ordered event list.
* JS property access on `undefined` throws; operations that can dereference a
  missing handler record are Option-valued, `none` meaning a thrown TypeError.
* `this.ray.scale.y = delta.length()` stores a square root; the state keeps
  the exact squared length (`rayScaleYSq`) and the displayed scale is
  `rayScaleY s = Real.sqrt s.rayScaleYSq`, which equals `delta.length()`.
* Not modelled (not referenced by any claim): the reticle/ray mesh geometry
  (`createReticle_`, `createRay_`), the `ray.rotation` assignment taken from
  `THREE.ArrowHelper`, and the `console.warn` in `getSelectedMesh`.
* JS `for (var id in this.meshes)` iterates keys in ascending integer order;
  the model keeps the two registries as association lists and iterates them in
  list order.  States built by `add` in ascending id order match the JS order;
  the spec leaves the iteration order unspecified.
-/

/-- Component-wise embedding of `THREE.Vector3` (exact coordinates). -/
structure Vec3 where
  x : ℚ
  y : ℚ
  z : ℚ
deriving DecidableEq, Repr

/-- Screen coordinate, the argument of `setPointer` (`THREE.Vector2`). -/
structure Vec2 where
  x : ℚ
  y : ℚ
deriving DecidableEq, Repr

/-- Embedding of `THREE.Quaternion` (x, y, z imaginary parts, w real part). -/
structure Quat where
  x : ℚ
  y : ℚ
  z : ℚ
  w : ℚ
deriving DecidableEq, Repr

/-- `v.add(w)` of `THREE.Vector3`. -/
def Vec3.add (v w : Vec3) : Vec3 :=
  ⟨v.x + w.x, v.y + w.y, v.z + w.z⟩

/-- `v.multiplyScalar(k)` of `THREE.Vector3`. -/
def Vec3.multiplyScalar (v : Vec3) (k : ℚ) : Vec3 :=
  ⟨v.x * k, v.y * k, v.z * k⟩

/-- `v.lengthSq()` of `THREE.Vector3`: the exact squared Euclidean length. -/
def Vec3.lengthSq (v : Vec3) : ℚ :=
  v.x * v.x + v.y * v.y + v.z * v.z

/-- `v.applyQuaternion(q)` of `THREE.Vector3`: the component formula the
library computes (quaternion product `q * v` followed by `· * conj q`). -/
def Vec3.applyQuaternion (v : Vec3) (q : Quat) : Vec3 :=
  let ix := q.w * v.x + q.y * v.z - q.z * v.y
  let iy := q.w * v.y + q.z * v.x - q.x * v.z
  let iz := q.w * v.z + q.x * v.y - q.y * v.x
  let iw := -q.x * v.x - q.y * v.y - q.z * v.z
  ⟨ix * q.w + iw * (-q.x) + iy * (-q.z) - iz * (-q.y),
   iy * q.w + iw * (-q.y) + iz * (-q.x) - ix * (-q.z),
   iz * q.w + iw * (-q.z) + ix * (-q.y) - iy * (-q.x)⟩

/-- Hamilton product of quaternions. -/
def Quat.qmul (a b : Quat) : Quat :=
  ⟨a.w * b.x + a.x * b.w + a.y * b.z - a.z * b.y,
   a.w * b.y - a.x * b.z + a.y * b.w + a.z * b.x,
   a.w * b.z + a.x * b.y - a.y * b.x + a.z * b.w,
   a.w * b.w - a.x * b.x - a.y * b.y - a.z * b.z⟩

/-- Quaternion conjugate. -/
def Quat.qconj (a : Quat) : Quat :=
  ⟨-a.x, -a.y, -a.z, a.w⟩

/-- A vector viewed as a pure quaternion. -/
def Quat.ofVec (v : Vec3) : Quat :=
  ⟨v.x, v.y, v.z, 0⟩

/-- The vector (imaginary) part of a quaternion. -/
def Quat.vecPart (a : Quat) : Vec3 :=
  ⟨a.x, a.y, a.z⟩

/-- Modelled from the spec: "computes direction as a fixed local forward
vector ... rotated by the given orientation".  Rotation of a vector by a
quaternion is the canonical sandwich `q * v * conj q`.  (The source delegates
this to `THREE.Vector3.applyQuaternion`, whose inlined component formula is
`Vec3.applyQuaternion` above; claim C9 compares the two.) -/
def rotateByQuat (q : Quat) (v : Vec3) : Vec3 :=
  ((q.qmul (Quat.ofVec v)).qmul q.qconj).vecPart

/-- An interactive object: an opaque scene-graph handle with a unique id
(`object.id` is all the registry reads from it). -/
structure Mesh where
  id : Nat
deriving DecidableEq, Repr

/-- A handler record passed to `add`.  Callbacks are opaque; the model keeps
presence flags, and invocations are recorded as events. -/
structure HandlerSet where
  onSelect : Bool
  onDeselect : Bool
  onAction : Bool
deriving DecidableEq, Repr

/-- The empty handler record (`opt_handlers || {}` when no argument given). -/
def emptyHandlers : HandlerSet :=
  ⟨false, false, false⟩

/-- Observable outputs of the component: per-object callback invocations and
broadcast `EventEmitter` emissions, in program order. -/
inductive Event where
  | onSelectCall (id : Nat)
  | onDeselectCall (id : Nat)
  | selectEmit (id : Nat)
  | deselectEmit (id : Nat)
deriving DecidableEq, Repr

/-- The camera handed to the constructor, viewed through the only use the
code makes of it: `raycaster.setFromCamera(vector, this.camera)` writes an
(origin, direction) pair computed from the screen coordinate. -/
def Camera : Type :=
  Vec2 → Vec3 × Vec3

/-- Association-list lookup, JS `obj[id]` (`none` = `undefined`). -/
def lookupAL {α : Type} (id : Nat) : List (Nat × α) → Option α
  | [] => none
  | (j, w) :: rest => if j = id then some w else lookupAL id rest

/-- Association-list assignment, JS `obj[id] = v` (replace in place, else
append). -/
def insertAL {α : Type} (id : Nat) (v : α) : List (Nat × α) → List (Nat × α)
  | [] => [(id, v)]
  | (j, w) :: rest => if j = id then (id, v) :: rest else (j, w) :: insertAL id v rest

/-- Association-list deletion, JS `delete obj[id]`. -/
def eraseAL {α : Type} (id : Nat) : List (Nat × α) → List (Nat × α)
  | [] => []
  | (j, w) :: rest => if j = id then eraseAL id rest else (j, w) :: eraseAL id rest

/-- The keys of an association list. -/
def keysAL {α : Type} (l : List (Nat × α)) : List Nat :=
  l.map Prod.fst

/-- The effect of `insertAL` on the key sequence (identity on a present key,
append otherwise). -/
def keysIns (id : Nat) : List Nat → List Nat
  | [] => [id]
  | j :: rest => if j = id then j :: rest else j :: keysIns id rest

/-- `this.selected[id] = true` on the selection set. -/
def insertId (id : Nat) (l : List Nat) : List Nat :=
  if id ∈ l then l else l ++ [id]

/-- `delete this.selected[id]` on the selection set. -/
def eraseId (id : Nat) (l : List Nat) : List Nat :=
  l.filter (fun j => j ≠ id)

/-- `const RETICLE_DISTANCE = 3`. -/
def RETICLE_DISTANCE : ℚ := 3

/-- The mutable state of one `RayRenderer` instance. -/
structure RayState where
  /-- `this.camera`, fixed at construction. -/
  camera : Camera
  /-- `this.meshes`: interactive objects keyed on id. -/
  meshes : List (Nat × Mesh)
  /-- `this.selected`: ids currently selected. -/
  selected : List Nat
  /-- `this.handlers`: handler records keyed on id. -/
  handlers : List (Nat × HandlerSet)
  /-- `this.position`. -/
  position : Vec3
  /-- `this.orientation`. -/
  orientation : Quat
  /-- `this.raycaster.ray.origin`. -/
  rayOrigin : Vec3
  /-- `this.raycaster.ray.direction`. -/
  rayDirection : Vec3
  /-- `this.reticleDistance`. -/
  reticleDistance : ℚ
  /-- `this.reticle.position`. -/
  reticlePos : Vec3
  /-- the exact square of `this.ray.scale.y`. -/
  rayScaleYSq : ℚ
  /-- `this.ray.position`. -/
  rayPos : Vec3
  /-- `this.reticle.visible`. -/
  reticleVisible : Bool
  /-- `this.ray.visible`. -/
  rayVisible : Bool

/-- `this.ray.scale.y`, i.e. `delta.length()`: square root of the stored
exact squared length. -/
noncomputable def rayScaleY (s : RayState) : ℝ :=
  Real.sqrt (s.rayScaleYSq : ℝ)

/-- The constructor: empty registries, default THREE ray (origin at zero,
direction `(0,0,-1)`), reticle at default distance, unit ray scale. -/
def initialState (camera : Camera) : RayState where
  camera := camera
  meshes := []
  selected := []
  handlers := []
  position := ⟨0, 0, 0⟩
  orientation := ⟨0, 0, 0, 1⟩
  rayOrigin := ⟨0, 0, 0⟩
  rayDirection := ⟨0, 0, -1⟩
  reticleDistance := RETICLE_DISTANCE
  reticlePos := ⟨0, 0, 0⟩
  rayScaleYSq := 1
  rayPos := ⟨0, 0, 0⟩
  reticleVisible := true
  rayVisible := true

/-- `updateRaycaster_()`: recompute reticle position and ray-beam transform
from the ray and the current reticle distance. -/
def updateRaycaster (s : RayState) : RayState :=
  let position := (s.rayDirection.multiplyScalar s.reticleDistance).add s.rayOrigin
  let delta := s.rayDirection.multiplyScalar s.reticleDistance
  { s with
    reticlePos := position
    rayScaleYSq := delta.lengthSq
    rayPos := s.rayOrigin.add (delta.multiplyScalar (1 / 2)) }

/-- `moveReticle_(intersections)`: default distance on `null`, else the first
intersection's distance; reading `intersections[0].distance` of an empty
array throws (`none`). -/
def moveReticle (intersections : Option (List ℚ)) (s : RayState) : Option RayState :=
  match intersections with
  | none => some (updateRaycaster { s with reticleDistance := RETICLE_DISTANCE })
  | some [] => none
  | some (d :: _) => some (updateRaycaster { s with reticleDistance := d })

/-- One iteration of the `update()` loop body for the registry entry
`(id, mesh)`: the select / deselect transition logic plus reticle refocus.
`f` is the intersector (ordered hit distances for the current ray). -/
def processMesh (f : Mesh → List ℚ) (s : RayState) (evs : List Event)
    (id : Nat) (mesh : Mesh) : Option (RayState × List Event) :=
  let intersects := f mesh
  let isIntersected := !intersects.isEmpty
  let isSelected := s.selected.contains id
  let step1 : Option (RayState × List Event) :=
    if isIntersected && !isSelected then
      -- newly selected: mark, invoke onSelect if present, emit 'select'
      match lookupAL id s.handlers with
      | none => none
      | some h =>
        some ({ s with selected := insertId id s.selected },
          evs ++ (if h.onSelect then [Event.onSelectCall id] else [])
              ++ [Event.selectEmit id])
    else if !isIntersected && isSelected then
      -- no longer selected: unmark, invoke onDeselect if present,
      -- reset the reticle, emit 'deselect'
      match lookupAL id s.handlers with
      | none => none
      | some h =>
        match moveReticle none { s with selected := eraseId id s.selected } with
        | none => none
        | some s2 =>
          some (s2,
            evs ++ (if h.onDeselect then [Event.onDeselectCall id] else [])
                ++ [Event.deselectEmit id])
    else some (s, evs)
  match step1 with
  | none => none
  | some (s1, evs1) =>
    if isIntersected then
      match moveReticle (some intersects) s1 with
      | none => none
      | some s2 => some (s2, evs1)
    else some (s1, evs1)

/-- The `for (var id in this.meshes)` loop of `update()` over the remaining
entries. -/
def updateLoop (f : Mesh → List ℚ) : List (Nat × Mesh) → RayState → List Event →
    Option (RayState × List Event)
  | [], s, evs => some (s, evs)
  | (id, mesh) :: rest, s, evs =>
    match processMesh f s evs id mesh with
    | none => none
    | some (s1, evs1) => updateLoop f rest s1 evs1

/-- `update()`: one full selection-state-machine cycle over all registered
objects, returning the new state and the events emitted in order. -/
def update (f : Mesh → List ℚ) (s : RayState) : Option (RayState × List Event) :=
  updateLoop f s.meshes s []

/-- A sequence of update cycles (each with its own intersector, since the ray
may move between frames), concatenating the emitted events. -/
def runUpdates : List (Mesh → List ℚ) → RayState → Option (RayState × List Event)
  | [], s => some (s, [])
  | f :: fs, s =>
    match update f s with
    | none => none
    | some (s1, evs1) =>
      match runUpdates fs s1 with
      | none => none
      | some (s2, evs2) => some (s2, evs1 ++ evs2)

/-- `add(object, opt_handlers)`: register under `object.id`, store the
handler record (default empty).  The body performs no callback or emission,
hence the always-empty event component. -/
def add (s : RayState) (object : Mesh) (opt_handlers : Option HandlerSet) :
    RayState × List Event :=
  ({ s with
     meshes := insertAL object.id object s.meshes
     handlers := insertAL object.id (opt_handlers.getD emptyHandlers) s.handlers },
   [])

/-- `remove(object)`.  Faithful to the source, including the inverted guard:
the registry entries are deleted only when `this.meshes[id]` is already
absent.  If the object is selected, `onDeselect` is invoked (dereferencing a
missing handler record throws, hence `none`) and the id leaves the selection
set. -/
def remove (s : RayState) (object : Mesh) : Option (RayState × List Event) :=
  let id := object.id
  let s1 :=
    if lookupAL id s.meshes = none then
      { s with meshes := eraseAL id s.meshes, handlers := eraseAL id s.handlers }
    else s
  if s1.selected.contains id then
    match lookupAL id s1.handlers with
    | none => none
    | some h =>
      some ({ s1 with selected := eraseId object.id s1.selected },
        if h.onDeselect then [Event.onDeselectCall id] else [])
  else some (s1, [])

/-- `setPosition(vector)`. -/
def setPosition (s : RayState) (vector : Vec3) : RayState :=
  updateRaycaster { s with position := vector, rayOrigin := vector }

/-- `getOrigin()`. -/
def getOrigin (s : RayState) : Vec3 :=
  s.rayOrigin

/-- `setOrientation(quaternion)`: direction becomes `(0,0,-1)` rotated by the
quaternion (via `THREE.Vector3.applyQuaternion`), then refresh. -/
def setOrientation (s : RayState) (quaternion : Quat) : RayState :=
  let pointAt := (Vec3.mk 0 0 (-1)).applyQuaternion quaternion
  updateRaycaster { s with orientation := quaternion, rayDirection := pointAt }

/-- `getDirection()`. -/
def getDirection (s : RayState) : Vec3 :=
  s.rayDirection

/-- `setPointer(vector)`: `raycaster.setFromCamera(vector, this.camera)`
writes the camera-unprojected origin and direction, then refresh. -/
def setPointer (s : RayState) (vector : Vec2) : RayState :=
  let od := s.camera vector
  updateRaycaster { s with rayOrigin := od.1, rayDirection := od.2 }

/-- `getSelectedMesh()`: iterate the selection set, returning the mesh of the
last selected id (`none` when nothing is selected).  The `console.warn` on
multiple selection is not modelled. -/
def getSelectedMesh (s : RayState) : Option Mesh :=
  s.selected.foldl (fun _ id => lookupAL id s.meshes) none

/-- `setReticleVisibility(isVisible)`. -/
def setReticleVisibility (s : RayState) (isVisible : Bool) : RayState :=
  { s with reticleVisible := isVisible }

/-- `setRayVisibility(isVisible)`. -/
def setRayVisibility (s : RayState) (isVisible : Bool) : RayState :=
  { s with rayVisible := isVisible }

/-- `setActive(isActive)`: a no-op placeholder in the source. -/
def setActive (s : RayState) (_isActive : Bool) : RayState :=
  s

/-! ### Derived notions used to state the claims -/

/-- The events concerning one object that matter for the exactly-once
property: its `onSelect` invocation, its `select` emission and its `deselect`
emission. -/
inductive IdEv where
  | call
  | sel
  | desel
deriving DecidableEq, Repr

/-- Project an event trace onto one object id, keeping the `onSelect`
invocation, the `select` emission and the `deselect` emission for that id. -/
def idEvs (id : Nat) : List Event → List IdEv :=
  List.filterMap fun e =>
    match e with
    | Event.onSelectCall j => if j = id then some IdEv.call else none
    | Event.selectEmit j => if j = id then some IdEv.sel else none
    | Event.deselectEmit j => if j = id then some IdEv.desel else none
    | Event.onDeselectCall _ => none

/-- Whether the registered handler record for `id` carries an `onSelect`
callback. -/
def hcOf (id : Nat) (hs : List (Nat × HandlerSet)) : Bool :=
  match lookupAL id hs with
  | some h => h.onSelect
  | none => false

/-- The projected events of one select transition: `onSelect` invocation (when
the handler is present) followed by the `select` emission. -/
def selBlock (hc : Bool) : List IdEv :=
  if hc then [IdEv.call, IdEv.sel] else [IdEv.sel]

/-- The projected events one update cycle appends for an object, as a function
of its selected flag `S` before the cycle, its handler presence `hc`, the
intersector and its registry entry (`none` when unregistered). -/
def blockC (S hc : Bool) (f : Mesh → List ℚ) : Option Mesh → List IdEv
  | none => []
  | some m =>
    let I := !(f m).isEmpty
    if I && !S then selBlock hc
    else if !I && S then [IdEv.desel]
    else []

/-- The object's selected flag after one update cycle: unchanged when
unregistered, otherwise equal to its intersection status. -/
def postSelC (S : Bool) (f : Mesh → List ℚ) : Option Mesh → Bool
  | none => S
  | some m => !(f m).isEmpty

/-- Alternation of the per-object projected trace: from an unselected flag the
next events form one select transition, from a selected flag the next event is
a `deselect` emission. -/
inductive Alt (hc : Bool) : Bool → List IdEv → Prop where
  | nil (b : Bool) : Alt hc b []
  | selStep {l : List IdEv} : Alt hc true l → Alt hc false (selBlock hc ++ l)
  | deselStep {l : List IdEv} : Alt hc false l → Alt hc true (IdEv.desel :: l)

/-- Well-formedness of a `RayRenderer` state: the two registry maps have the
same keys in the same order, selected ids are registered, and keys are not
duplicated.  This holds for every state reachable from the constructor. -/
def WF (s : RayState) : Prop :=
  keysAL s.meshes = keysAL s.handlers ∧
  (∀ id ∈ s.selected, id ∈ keysAL s.meshes) ∧
  (keysAL s.meshes).Nodup

/-- The registry/selection consistency invariant exactly as claim C6 states
it: selected ids are in the object mapping, and the object and handler
mappings have the same ids. -/
def InvC6 (s : RayState) : Prop :=
  (∀ id ∈ keysAL s.meshes, id ∈ keysAL s.handlers) ∧
  (∀ id ∈ keysAL s.handlers, id ∈ keysAL s.meshes) ∧
  (∀ id ∈ s.selected, id ∈ keysAL s.meshes)

instance (s : RayState) : Decidable (WF s) :=
  inferInstanceAs (Decidable (keysAL s.meshes = keysAL s.handlers ∧
    (∀ id ∈ s.selected, id ∈ keysAL s.meshes) ∧ (keysAL s.meshes).Nodup))

instance (s : RayState) : Decidable (InvC6 s) :=
  inferInstanceAs (Decidable ((∀ id ∈ keysAL s.meshes, id ∈ keysAL s.handlers) ∧
    (∀ id ∈ keysAL s.handlers, id ∈ keysAL s.meshes) ∧
    (∀ id ∈ s.selected, id ∈ keysAL s.meshes)))

/-! ### Concrete instances used by witnesses and counterexamples -/

/-- A trivial camera: every pointer unprojects to the default ray. -/
def cam0 : Camera :=
  fun _ => (⟨0, 0, 0⟩, ⟨0, 0, -1⟩)

/-- A second camera, unprojecting to a shifted ray. -/
def cam1 : Camera :=
  fun _ => (⟨1, 0, 0⟩, ⟨0, 0, -1⟩)

/-- A freshly constructed renderer. -/
def baseState : RayState :=
  initialState cam0

/-- An interactive object with id 1. -/
def meshA : Mesh := ⟨1⟩

/-- An interactive object with id 2. -/
def meshB : Mesh := ⟨2⟩

/-- A handler record with `onSelect` and `onDeselect` callbacks. -/
def handlersAB : HandlerSet := ⟨true, true, false⟩

/-- A renderer with object 1 registered (handlers present), nothing
selected. -/
def sReg : RayState :=
  (add baseState meshA (some handlersAB)).1

/-- `sReg` with object 1 currently selected. -/
def sSel : RayState :=
  { sReg with selected := [1] }

/-- An intersector hitting every object at distance 2. -/
def fHit : Mesh → List ℚ :=
  fun _ => [2]

/-- An intersector hitting nothing. -/
def fMiss : Mesh → List ℚ :=
  fun _ => []

/-- An intersector hitting only object 1, at distance 2. -/
def fOnlyA : Mesh → List ℚ :=
  fun m => if m.id = 1 then [2] else []

/-- Two select/deselect rounds for the C1 witness. -/
def fsW1 : List (Mesh → List ℚ) :=
  [fHit, fMiss, fHit, fMiss]

/-- The result of the C1 witness trace. -/
def c1res : RayState × List Event :=
  (runUpdates fsW1 sReg).getD (sReg, [])

/-- The result of removing the registered object 1 from `sReg`. -/
def c2res : RayState × List Event :=
  (remove sReg meshA).getD (sReg, [])

/-- The C3 counterexample state: objects 1 and 2 registered (empty handler
records), object 2 currently selected. -/
def sC3 : RayState :=
  { (add (add baseState meshA (some emptyHandlers)).1 meshB (some emptyHandlers)).1 with
    selected := [2] }

/-- The result of the C3 counterexample cycle: object 1 is the sole
intersected object (distance 2) while object 2 deselects. -/
def c3cex : RayState × List Event :=
  (update fOnlyA sC3).getD (sC3, [])

/-- The result of the C3 witness cycle on `sReg`. -/
def c3res : RayState × List Event :=
  (update fOnlyA sReg).getD (sReg, [])

/-- The result of the C4 witness cycle: object 1 selected, nothing hit. -/
def c4res : RayState × List Event :=
  (update fMiss sSel).getD (sSel, [])

/-- The result of removing the selected object 1 from `sSel`. -/
def c5res : RayState × List Event :=
  (remove sSel meshA).getD (sSel, [])

/-! ### Association-list and selection-set lemmas -/

theorem lookupAL_isSome_iff {α : Type} (id : Nat) :
    ∀ l : List (Nat × α), (lookupAL id l).isSome ↔ id ∈ keysAL l
  | [] => by simp [lookupAL, keysAL]
  | (j, w) :: rest => by
    by_cases h : j = id
    · simp [lookupAL, keysAL, h]
    · have hne : ¬ id = j := fun hh => h hh.symm
      simp [lookupAL, keysAL, h, hne, lookupAL_isSome_iff id rest]

theorem lookupAL_eq_none_iff {α : Type} (id : Nat) (l : List (Nat × α)) :
    lookupAL id l = none ↔ id ∉ keysAL l := by
  rw [← lookupAL_isSome_iff]
  cases lookupAL id l <;> simp

theorem lookupAL_some_mem {α : Type} (id : Nat) (v : α) :
    ∀ l : List (Nat × α), lookupAL id l = some v → (id, v) ∈ l
  | [], h => by simp [lookupAL] at h
  | (j, w) :: rest, h => by
    by_cases hj : j = id
    · subst hj
      simp [lookupAL] at h
      subst h
      exact List.mem_cons_self _ _
    · simp [lookupAL, hj] at h
      exact List.mem_cons_of_mem _ (lookupAL_some_mem id v rest h)

theorem mem_keysAL_of_mem {α : Type} {p : Nat × α} {l : List (Nat × α)}
    (h : p ∈ l) : p.1 ∈ keysAL l :=
  List.mem_map_of_mem Prod.fst h

theorem lookupAL_insertAL_self {α : Type} (id : Nat) (v : α) :
    ∀ l : List (Nat × α), lookupAL id (insertAL id v l) = some v
  | [] => by simp [insertAL, lookupAL]
  | (j, w) :: rest => by
    by_cases h : j = id
    · simp [insertAL, lookupAL, h]
    · simp [insertAL, lookupAL, h, lookupAL_insertAL_self id v rest]

theorem keysAL_insertAL {α : Type} (id : Nat) (v : α) :
    ∀ l : List (Nat × α), keysAL (insertAL id v l) = keysIns id (keysAL l)
  | [] => by simp [insertAL, keysAL, keysIns]
  | (j, w) :: rest => by
    by_cases h : j = id
    · simp [insertAL, keysAL, keysIns, h]
    · simp only [insertAL, if_neg h, keysAL, List.map_cons, keysIns]
      rw [List.cons.injEq]
      exact ⟨rfl, keysAL_insertAL id v rest⟩

theorem mem_keysIns (id a : Nat) :
    ∀ ks : List Nat, a ∈ keysIns id ks ↔ a = id ∨ a ∈ ks
  | [] => by simp [keysIns]
  | j :: rest => by
    by_cases h : j = id
    · subst h
      simp [keysIns]
    · simp [keysIns, h, mem_keysIns id a rest]
      tauto

theorem nodup_keysIns (id : Nat) :
    ∀ ks : List Nat, ks.Nodup → (keysIns id ks).Nodup
  | [], _ => by simp [keysIns]
  | j :: rest, h => by
    rw [List.nodup_cons] at h
    by_cases hj : j = id
    · simpa [keysIns, hj, List.nodup_cons] using h
    · rw [keysIns, if_neg hj, List.nodup_cons]
      refine ⟨fun hmem => ?_, nodup_keysIns id rest h.2⟩
      rcases (mem_keysIns id j rest).mp hmem with h1 | h1
      · exact hj h1
      · exact h.1 h1

theorem eraseAL_of_not_mem {α : Type} (id : Nat) :
    ∀ l : List (Nat × α), id ∉ keysAL l → eraseAL id l = l
  | [], _ => rfl
  | (j, w) :: rest, h => by
    simp [keysAL] at h
    rw [eraseAL, if_neg (fun hj => h.1 hj.symm)]
    rw [eraseAL_of_not_mem id rest (by simpa [keysAL] using h.2)]

theorem mem_eraseId (a id : Nat) (l : List Nat) :
    a ∈ eraseId id l ↔ a ∈ l ∧ a ≠ id := by
  simp [eraseId]

theorem mem_insertId (a id : Nat) (l : List Nat) :
    a ∈ insertId id l ↔ a ∈ l ∨ a = id := by
  by_cases h : id ∈ l
  · simp [insertId, h]
    intro ha
    subst ha
    exact h
  · simp [insertId, h]

theorem contains_iff_mem (l : List Nat) (a : Nat) :
    l.contains a = true ↔ a ∈ l := by
  induction l with
  | nil => simp
  | cons j rest ih => simp [List.contains_cons] at ih ⊢

/-! ### Quaternion rotation -/

theorem applyQuaternion_eq_rotateByQuat (v : Vec3) (q : Quat) :
    v.applyQuaternion q = rotateByQuat q v := by
  cases v with
  | mk vx vy vz =>
    cases q with
    | mk qx qy qz qw =>
      simp only [Vec3.applyQuaternion, rotateByQuat, Quat.qmul, Quat.qconj,
        Quat.ofVec, Quat.vecPart, Vec3.mk.injEq]
      refine ⟨by ring, by ring, by ring⟩

/-! ### One loop iteration of `update()`: the four transition cases -/

theorem processMesh_noInter_sel (f : Mesh → List ℚ) (t : RayState)
    (evs : List Event) (j : Nat) (mj : Mesh) (h0 : HandlerSet)
    (hI : f mj = []) (hS : j ∈ t.selected)
    (hh : lookupAL j t.handlers = some h0) :
    processMesh f t evs j mj = some
      (updateRaycaster { t with selected := eraseId j t.selected,
                                reticleDistance := RETICLE_DISTANCE },
       evs ++ (if h0.onDeselect then [Event.onDeselectCall j] else [])
           ++ [Event.deselectEmit j]) := by
  simp [processMesh, moveReticle, hI, hS, hh]

theorem processMesh_noInter_notSel (f : Mesh → List ℚ) (t : RayState)
    (evs : List Event) (j : Nat) (mj : Mesh)
    (hI : f mj = []) (hS : j ∉ t.selected) :
    processMesh f t evs j mj = some (t, evs) := by
  simp [processMesh, hI, hS]

theorem processMesh_inter_sel (f : Mesh → List ℚ) (t : RayState)
    (evs : List Event) (j : Nat) (mj : Mesh) (d : ℚ) (ds : List ℚ)
    (hI : f mj = d :: ds) (hS : j ∈ t.selected) :
    processMesh f t evs j mj = some
      (updateRaycaster { t with reticleDistance := d }, evs) := by
  simp [processMesh, moveReticle, hI, hS]

theorem processMesh_inter_notSel (f : Mesh → List ℚ) (t : RayState)
    (evs : List Event) (j : Nat) (mj : Mesh) (d : ℚ) (ds : List ℚ)
    (h0 : HandlerSet)
    (hI : f mj = d :: ds) (hS : j ∉ t.selected)
    (hh : lookupAL j t.handlers = some h0) :
    processMesh f t evs j mj = some
      (updateRaycaster { t with selected := insertId j t.selected,
                                reticleDistance := d },
       evs ++ (if h0.onSelect then [Event.onSelectCall j] else [])
           ++ [Event.selectEmit j]) := by
  simp [processMesh, moveReticle, hI, hS, hh]

/-! ### Per-object shape of one loop iteration -/

theorem idEvs_append (i : Nat) (a b : List Event) :
    idEvs i (a ++ b) = idEvs i a ++ idEvs i b :=
  List.filterMap_append a b _

theorem processMesh_spec (f : Mesh → List ℚ) (t : RayState) (evs : List Event)
    (j : Nat) (mj : Mesh) (h0 : HandlerSet)
    (hh : lookupAL j t.handlers = some h0) :
    ∃ t1 evs1, processMesh f t evs j mj = some (t1, evs1) ∧
      t1.camera = t.camera ∧ t1.meshes = t.meshes ∧ t1.handlers = t.handlers ∧
      t1.rayOrigin = t.rayOrigin ∧ t1.rayDirection = t.rayDirection ∧
      (∀ i, i ≠ j → ((i ∈ t1.selected) ↔ (i ∈ t.selected))) ∧
      ((j ∈ t1.selected) ↔ f mj ≠ []) ∧
      (∀ i, i ≠ j → idEvs i evs1 = idEvs i evs) ∧
      idEvs j evs1 =
        idEvs j evs ++ blockC (t.selected.contains j) h0.onSelect f (some mj) := by
  by_cases hI : f mj = []
  · by_cases hS : j ∈ t.selected
    · have hSc : t.selected.contains j = true := (contains_iff_mem _ _).mpr hS
      refine ⟨_, _, processMesh_noInter_sel f t evs j mj h0 hI hS hh,
        by simp [updateRaycaster], by simp [updateRaycaster],
        by simp [updateRaycaster], by simp [updateRaycaster],
        by simp [updateRaycaster], ?_, ?_, ?_, ?_⟩
      · intro i hi
        simp [updateRaycaster, mem_eraseId, hi]
      · simp [updateRaycaster, mem_eraseId, hI]
      · intro i hi
        have hij : ¬ j = i := fun hji => hi hji.symm
        cases hc : h0.onDeselect <;>
          simp [idEvs_append, idEvs, hc, hij]
      · cases hc : h0.onDeselect <;>
          simp [idEvs_append, idEvs, hc, blockC, hI, hS]
    · refine ⟨_, _, processMesh_noInter_notSel f t evs j mj hI hS,
        rfl, rfl, rfl, rfl, rfl, fun i _ => Iff.rfl, by simpa [hI] using hS,
        fun i _ => rfl, ?_⟩
      simp [blockC, hI, hS]
  · obtain ⟨d, ds, hds⟩ := List.exists_cons_of_ne_nil hI
    by_cases hS : j ∈ t.selected
    · have hSc : t.selected.contains j = true := (contains_iff_mem _ _).mpr hS
      refine ⟨_, _, processMesh_inter_sel f t evs j mj d ds hds hS,
        by simp [updateRaycaster], by simp [updateRaycaster],
        by simp [updateRaycaster], by simp [updateRaycaster],
        by simp [updateRaycaster], ?_, ?_, fun i _ => rfl, ?_⟩
      · intro i _
        simp [updateRaycaster]
      · simp [updateRaycaster, hS, hI]
      · simp [blockC, hds, hS]
    · refine ⟨_, _, processMesh_inter_notSel f t evs j mj d ds h0 hds hS hh,
        by simp [updateRaycaster], by simp [updateRaycaster],
        by simp [updateRaycaster], by simp [updateRaycaster],
        by simp [updateRaycaster], ?_, ?_, ?_, ?_⟩
      · intro i hi
        simp [updateRaycaster, mem_insertId, hi]
      · simp [updateRaycaster, mem_insertId, hI]
      · intro i hi
        have hij : ¬ j = i := fun hji => hi hji.symm
        cases hc : h0.onSelect <;>
          simp [idEvs_append, idEvs, hc, hij]
      · cases hc : h0.onSelect <;>
          simp [idEvs_append, idEvs, hc, blockC, selBlock, hds, hS]

/-! ### The `update()` loop -/

theorem contains_eq_decide (l : List Nat) (a : Nat) :
    l.contains a = decide (a ∈ l) := by
  by_cases h : a ∈ l
  · rw [(contains_iff_mem l a).mpr h, decide_eq_true h]
  · rw [Bool.eq_false_iff.mpr (fun hc => h ((contains_iff_mem l a).mp hc)),
      decide_eq_false h]

theorem contains_congr {l1 l2 : List Nat} {a : Nat} (h : a ∈ l1 ↔ a ∈ l2) :
    l1.contains a = l2.contains a := by
  rw [contains_eq_decide, contains_eq_decide]
  exact decide_eq_decide.mpr h

theorem updateLoop_append (f : Mesh → List ℚ) (A B : List (Nat × Mesh)) :
    ∀ (t : RayState) (evs : List Event),
      updateLoop f (A ++ B) t evs =
        match updateLoop f A t evs with
        | none => none
        | some (t1, evs1) => updateLoop f B t1 evs1 := by
  induction A with
  | nil => intro t evs; rfl
  | cons p rest ih =>
    intro t evs
    obtain ⟨j, mj⟩ := p
    rw [List.cons_append, updateLoop, updateLoop]
    cases processMesh f t evs j mj with
    | none => rfl
    | some r => exact ih r.1 r.2

theorem updateLoop_noop (f : Mesh → List ℚ) :
    ∀ (L : List (Nat × Mesh)) (t : RayState) (evs : List Event),
      (∀ p ∈ L, f p.2 = [] ∧ p.1 ∉ t.selected) →
      updateLoop f L t evs = some (t, evs)
  | [], t, evs, _ => rfl
  | (j, mj) :: rest, t, evs, h => by
    have hj := h (j, mj) (List.mem_cons_self _ _)
    rw [updateLoop, processMesh_noInter_notSel f t evs j mj hj.1 hj.2]
    exact updateLoop_noop f rest t evs (fun p hp => h p (List.mem_cons_of_mem _ hp))

theorem updateLoop_basic (f : Mesh → List ℚ) :
    ∀ (L : List (Nat × Mesh)) (t : RayState) (evs : List Event),
      (∀ p ∈ L, ∃ h0, lookupAL p.1 t.handlers = some h0) →
      ∃ t' evs', updateLoop f L t evs = some (t', evs') ∧
        t'.camera = t.camera ∧ t'.meshes = t.meshes ∧ t'.handlers = t.handlers ∧
        (∀ i, i ∈ t'.selected → i ∈ t.selected ∨ i ∈ keysAL L)
  | [], t, evs, _ => ⟨t, evs, rfl, rfl, rfl, rfl, fun i hi => Or.inl hi⟩
  | (j, mj) :: rest, t, evs, hh => by
    obtain ⟨h0, hj⟩ := hh (j, mj) (List.mem_cons_self _ _)
    obtain ⟨t1, evs1, hp, hcam, hm, hha, -, -, hselpres, hselj, -, -⟩ :=
      processMesh_spec f t evs j mj h0 hj
    obtain ⟨t', evs', hloop, hcam', hm', hha', hsub⟩ :=
      updateLoop_basic f rest t1 evs1
        (fun p hp' => by
          rw [hha]
          exact hh p (List.mem_cons_of_mem _ hp'))
    refine ⟨t', evs', ?_, hcam'.trans hcam, hm'.trans hm, hha'.trans hha, ?_⟩
    · rw [updateLoop, hp]
      exact hloop
    · intro i hi
      rcases hsub i hi with hi1 | hi1
      · by_cases hij : i = j
        · subst hij
          exact Or.inr (by simp [keysAL])
        · rcases (hselpres i hij).mp hi1 with h'
          exact Or.inl h'
      · exact Or.inr (by simp [keysAL] at hi1 ⊢; exact Or.inr hi1)

theorem updateLoop_noInter (f : Mesh → List ℚ) :
    ∀ (L : List (Nat × Mesh)) (t : RayState) (evs : List Event),
      (∀ p ∈ L, ∃ h0, lookupAL p.1 t.handlers = some h0) →
      (∀ p ∈ L, f p.2 = []) →
      ∃ t' evs', updateLoop f L t evs = some (t', evs') ∧
        t'.rayOrigin = t.rayOrigin ∧ t'.rayDirection = t.rayDirection ∧
        t'.reticleDistance =
          (if L.any (fun p => t.selected.contains p.1) then RETICLE_DISTANCE
           else t.reticleDistance) ∧
        t'.reticlePos =
          (if L.any (fun p => t.selected.contains p.1) then
            (t.rayDirection.multiplyScalar RETICLE_DISTANCE).add t.rayOrigin
           else t.reticlePos)
  | [], t, evs, _, _ => ⟨t, evs, rfl, rfl, rfl, by simp, by simp⟩
  | (j, mj) :: rest, t, evs, hh, hf => by
    obtain ⟨h0, hj⟩ := hh (j, mj) (List.mem_cons_self _ _)
    have hfj : f mj = [] := hf (j, mj) (List.mem_cons_self _ _)
    by_cases hS : j ∈ t.selected
    · have hstep := processMesh_noInter_sel f t evs j mj h0 hfj hS hj
      set t1 := updateRaycaster
        { t with selected := eraseId j t.selected,
                 reticleDistance := RETICLE_DISTANCE } with ht1
      obtain ⟨t', evs', hloop, ho', hd', hrd', hrp'⟩ :=
        updateLoop_noInter f rest t1 _
          (fun p hp' => by
            have : t1.handlers = t.handlers := by simp [ht1, updateRaycaster]
            rw [this]
            exact hh p (List.mem_cons_of_mem _ hp'))
          (fun p hp' => hf p (List.mem_cons_of_mem _ hp'))
      have ht1o : t1.rayOrigin = t.rayOrigin := by simp [ht1, updateRaycaster]
      have ht1d : t1.rayDirection = t.rayDirection := by simp [ht1, updateRaycaster]
      have ht1rd : t1.reticleDistance = RETICLE_DISTANCE := by
        simp [ht1, updateRaycaster]
      have ht1rp : t1.reticlePos =
          (t.rayDirection.multiplyScalar RETICLE_DISTANCE).add t.rayOrigin := by
        simp [ht1, updateRaycaster]
      have hSc : t.selected.contains j = true := (contains_iff_mem _ _).mpr hS
      refine ⟨t', evs', ?_, ho'.trans ht1o, hd'.trans ht1d, ?_, ?_⟩
      · rw [updateLoop, hstep]
        exact hloop
      · rw [hrd', ht1rd, List.any_cons, hSc]
        simp
      · rw [hrp', ht1rp, ht1d, ht1o, List.any_cons, hSc]
        simp
    · have hstep := processMesh_noInter_notSel f t evs j mj hfj hS
      obtain ⟨t', evs', hloop, ho', hd', hrd', hrp'⟩ :=
        updateLoop_noInter f rest t evs
          (fun p hp' => hh p (List.mem_cons_of_mem _ hp'))
          (fun p hp' => hf p (List.mem_cons_of_mem _ hp'))
      have hSc : t.selected.contains j = false :=
        Bool.eq_false_iff.mpr (fun hc => hS ((contains_iff_mem _ _).mp hc))
      refine ⟨t', evs', ?_, ho', hd', ?_, ?_⟩
      · rw [updateLoop, hstep]
        exact hloop
      · rw [hrd', List.any_cons, hSc, Bool.false_or]
      · rw [hrp', List.any_cons, hSc, Bool.false_or]

theorem updateLoop_idspec (f : Mesh → List ℚ) :
    ∀ (L : List (Nat × Mesh)) (t : RayState) (evs : List Event),
      (∀ p ∈ L, ∃ h0, lookupAL p.1 t.handlers = some h0) →
      (keysAL L).Nodup →
      ∃ t' evs', updateLoop f L t evs = some (t', evs') ∧
        t'.meshes = t.meshes ∧ t'.handlers = t.handlers ∧
        ∀ i,
          idEvs i evs' = idEvs i evs ++
            blockC (t.selected.contains i) (hcOf i t.handlers) f (lookupAL i L) ∧
          ((i ∈ t'.selected) ↔
            postSelC (t.selected.contains i) f (lookupAL i L) = true)
  | [], t, evs, _, _ =>
    ⟨t, evs, rfl, rfl, rfl, fun i =>
      ⟨by simp [lookupAL, blockC],
       by simp only [lookupAL, postSelC]; exact (contains_iff_mem _ _).symm⟩⟩
  | (j, mj) :: rest, t, evs, hh, hnd => by
    obtain ⟨h0, hj⟩ := hh (j, mj) (List.mem_cons_self _ _)
    obtain ⟨t1, evs1, hp, hcam, hm, hha, ho, hd, hselpres, hselj, hevpres, hevj⟩ :=
      processMesh_spec f t evs j mj h0 hj
    have hnd' : (keysAL rest).Nodup ∧ j ∉ keysAL rest := by
      have : (j :: keysAL rest).Nodup := by simpa [keysAL] using hnd
      rw [List.nodup_cons] at this
      exact ⟨this.2, this.1⟩
    obtain ⟨t', evs', hloop, hm', hha', hmain⟩ :=
      updateLoop_idspec f rest t1 evs1
        (fun p hp' => by
          rw [hha]
          exact hh p (List.mem_cons_of_mem _ hp'))
        hnd'.1
    refine ⟨t', evs', ?_, hm'.trans hm, hha'.trans hha, ?_⟩
    · rw [updateLoop, hp]
      exact hloop
    · intro i
      obtain ⟨hA, hB⟩ := hmain i
      rcases eq_or_ne i j with rfl | hij
      · have hlrest : lookupAL i rest = none := (lookupAL_eq_none_iff i rest).mpr hnd'.2
        have hcons : lookupAL i ((i, mj) :: rest) = some mj := by simp [lookupAL]
        have hhc : hcOf i t.handlers = h0.onSelect := by simp [hcOf, hj]
        constructor
        · rw [hcons, hhc, hA, hlrest, hevj]
          simp [blockC]
        · rw [hB, hlrest, hcons]
          simp only [postSelC]
          have h1 : t1.selected.contains i = true ↔ (f mj ≠ []) := by
            rw [contains_iff_mem]
            exact hselj
          by_cases hfm : f mj = []
          · simp [hfm] at h1 ⊢
            exact h1
          · simp [hfm] at h1 ⊢
            exact h1
      · have hji : ¬ j = i := fun h => hij h.symm
        have hcons : lookupAL i ((j, mj) :: rest) = lookupAL i rest := by
          simp [lookupAL, hji]
        have hc1 : t1.selected.contains i = t.selected.contains i :=
          contains_congr (hselpres i hij)
        have hhc : hcOf i t1.handlers = hcOf i t.handlers := by rw [hha]
        constructor
        · rw [hA, hevpres i hij, hc1, hhc, hcons]
        · rw [hB, hc1, hcons]

theorem update_spec (f : Mesh → List ℚ) (s : RayState) (hWF : WF s) :
    ∃ s' evs, update f s = some (s', evs) ∧
      s'.camera = s.camera ∧ s'.meshes = s.meshes ∧ s'.handlers = s.handlers ∧
      WF s' ∧
      ∀ i,
        idEvs i evs =
          blockC (s.selected.contains i) (hcOf i s.handlers) f
            (lookupAL i s.meshes) ∧
        ((i ∈ s'.selected) ↔
          postSelC (s.selected.contains i) f (lookupAL i s.meshes) = true) := by
  obtain ⟨hkeys, hsel, hnd⟩ := hWF
  have hcov : ∀ p ∈ s.meshes, ∃ h0, lookupAL p.1 s.handlers = some h0 := by
    intro p hp
    have h1 : p.1 ∈ keysAL s.handlers := by
      rw [← hkeys]
      exact mem_keysAL_of_mem hp
    exact Option.isSome_iff_exists.mp ((lookupAL_isSome_iff p.1 s.handlers).mpr h1)
  obtain ⟨s', evs, hloop, hm', hha', hmain⟩ :=
    updateLoop_idspec f s.meshes s [] hcov hnd
  obtain ⟨t2, evs2, hloop2, hc2, -, -, -⟩ := updateLoop_basic f s.meshes s [] hcov
  rw [hloop] at hloop2
  have hfst : s' = t2 := congrArg Prod.fst (Option.some.inj hloop2)
  have hcam : s'.camera = s.camera := by rw [hfst]; exact hc2
  refine ⟨s', evs, hloop, hcam, hm', hha', ?_, ?_⟩
  · refine ⟨?_, ?_, ?_⟩
    · rw [hm', hha', hkeys]
    · intro i hi
      rw [hm']
      obtain ⟨-, hB⟩ := hmain i
      have := hB.mp hi
      cases hlk : lookupAL i s.meshes with
      | none =>
        rw [hlk] at this
        simp only [postSelC] at this
        exact hsel i ((contains_iff_mem _ _).mp this)
      | some m =>
        exact (lookupAL_isSome_iff i s.meshes).mp (by rw [hlk]; rfl)
    · rw [hm']
      exact hnd
  · intro i
    obtain ⟨hA, hB⟩ := hmain i
    exact ⟨hA.trans (by simp [idEvs]), hB⟩

/-! ### Alternation of the per-object event trace -/

theorem runUpdates_alt (i : Nat) :
    ∀ (fs : List (Mesh → List ℚ)) (s s' : RayState) (evs : List Event),
      WF s → runUpdates fs s = some (s', evs) →
      s'.handlers = s.handlers ∧
      Alt (hcOf i s.handlers) (s.selected.contains i) (idEvs i evs)
  | [], s, s', evs, _, hrun => by
    simp only [runUpdates] at hrun
    have h := Option.some.inj hrun
    have hs' : s = s' := congrArg Prod.fst h
    have hevs : ([] : List Event) = evs := congrArg Prod.snd h
    refine ⟨by rw [← hs'], ?_⟩
    rw [← hevs]
    exact Alt.nil _
  | f :: fs, s, s', evs, hWF, hrun => by
    obtain ⟨s1, evs1, hupd, hcam1, hm1, hha1, hWF1, hmain⟩ := update_spec f s hWF
    have hrun' :
        (match runUpdates fs s1 with
         | none => none
         | some (s2, evs2) => some (s2, evs1 ++ evs2)) = some (s', evs) := by
      rw [← hrun, runUpdates, hupd]
    clear hrun
    cases hr2 : runUpdates fs s1 with
    | none =>
      rw [hr2] at hrun'
      exact absurd hrun' (by simp)
    | some r =>
      obtain ⟨s2, evs2⟩ := r
      rw [hr2] at hrun'
      have h := Option.some.inj hrun'
      have hs' : s2 = s' := congrArg Prod.fst h
      have hevs : evs1 ++ evs2 = evs := congrArg Prod.snd h
      obtain ⟨hha2, hAlt2⟩ := runUpdates_alt i fs s1 s2 evs2 hWF1 hr2
      obtain ⟨hA, hB⟩ := hmain i
      refine ⟨by rw [← hs', hha2, hha1], ?_⟩
      have hhc : hcOf i s1.handlers = hcOf i s.handlers := by rw [hha1]
      rw [hhc] at hAlt2
      have hb1 : s1.selected.contains i =
          postSelC (s.selected.contains i) f (lookupAL i s.meshes) := by
        cases hpost : postSelC (s.selected.contains i) f (lookupAL i s.meshes) with
        | false =>
          rw [hpost] at hB
          simp at hB
          exact Bool.eq_false_iff.mpr (fun hc => hB ((contains_iff_mem _ _).mp hc))
        | true =>
          rw [hpost] at hB
          simp at hB
          exact (contains_iff_mem _ _).mpr hB
      rw [hb1] at hAlt2
      rw [← hevs, idEvs_append, hA]
      cases hlk : lookupAL i s.meshes with
      | none =>
        rw [hlk] at hAlt2
        simp only [blockC, postSelC] at hAlt2 ⊢
        rw [List.nil_append]
        exact hAlt2
      | some m =>
        rw [hlk] at hAlt2
        by_cases hfm : (f m).isEmpty
        · cases hS : s.selected.contains i with
          | false =>
            rw [hS] at hAlt2
            simp only [blockC, postSelC, hfm, hS, Bool.and_false, Bool.and_true,
              Bool.not_false, Bool.not_true, Bool.false_and, Bool.and_self] at hAlt2 ⊢
            simp [hfm] at hAlt2 ⊢
            exact hAlt2
          | true =>
            rw [hS] at hAlt2
            simp only [postSelC, hfm] at hAlt2
            simp only [blockC, hfm, hS]
            simp only [Bool.not_true, Bool.and_false, Bool.not_false,
              Bool.and_true, Bool.false_and]
            simp [hfm] at hAlt2 ⊢
            exact Alt.deselStep hAlt2
        · cases hS : s.selected.contains i with
          | false =>
            rw [hS] at hAlt2
            simp only [postSelC, hfm] at hAlt2
            simp only [blockC, hS]
            simp [hfm] at hAlt2 ⊢
            exact Alt.selStep hAlt2
          | true =>
            rw [hS] at hAlt2
            simp only [postSelC, hfm] at hAlt2
            simp only [blockC, hS]
            simp [hfm] at hAlt2 ⊢
            exact hAlt2

theorem eat_clean_front :
    ∀ (a l' v w : List IdEv),
      a ++ l' = v ++ IdEv.desel :: w → IdEv.desel ∉ a →
      ∃ v', v = a ++ v' ∧ l' = v' ++ IdEv.desel :: w
  | [], l', v, w, h, _ => ⟨v, rfl, h⟩
  | x :: a', l', v, w, h, hna => by
    cases v with
    | nil =>
      rw [List.nil_append] at h
      have hx : x = IdEv.desel := (List.cons.injEq _ _ _ _).mp h |>.1
      exact absurd (hx ▸ List.mem_cons_self x a') hna
    | cons y v' =>
      have h' := (List.cons.injEq _ _ _ _).mp h
      obtain ⟨v'', hv, hl⟩ :=
        eat_clean_front a' l' v' w h'.2
          (fun hm => hna (List.mem_cons_of_mem _ hm))
      exact ⟨v'', by rw [h'.1, hv, List.cons_append], hl⟩

theorem desel_not_mem_selBlock (hc : Bool) : IdEv.desel ∉ selBlock hc := by
  cases hc <;> simp [selBlock]

theorem alt_true_first {hc : Bool} {l : List IdEv} (h : Alt hc true l) :
    ∀ v w, l = v ++ IdEv.desel :: w → IdEv.desel ∉ v → v = [] := by
  cases h with
  | nil =>
    intro v w hl _
    exact absurd hl.symm (List.append_ne_nil_of_right_ne_nil v (by simp))
  | deselStep h' =>
    intro v w hl hv
    cases v with
    | nil => rfl
    | cons y v' =>
      have := (List.cons.injEq _ _ _ _).mp hl
      exact absurd (this.1.symm ▸ List.mem_cons_self y v') (this.1 ▸ hv)

theorem alt_false_first {hc : Bool} {l : List IdEv} (h : Alt hc false l) :
    ∀ v w, l = v ++ IdEv.desel :: w → IdEv.desel ∉ v →
      v.count IdEv.sel = 1 ∧ v.count IdEv.call = (if hc then 1 else 0) := by
  cases h with
  | nil =>
    intro v w hl _
    exact absurd hl.symm (List.append_ne_nil_of_right_ne_nil v (by simp))
  | selStep h' =>
    intro v w hl hv
    obtain ⟨v', hveq, hl'⟩ :=
      eat_clean_front (selBlock hc) _ v w hl (desel_not_mem_selBlock hc)
    have hv' : v' = [] := by
      refine alt_true_first h' v' w hl' ?_
      intro hm
      exact hv (hveq ▸ List.mem_append_right _ hm)
    subst hv'
    rw [hveq, List.append_nil]
    cases hc <;> simp [selBlock]

/-! ### `remove` characterization and miscellaneous helpers -/

theorem remove_unreg_eq (s : RayState) (o : Mesh)
    (hm : lookupAL o.id s.meshes = none)
    (hkh : o.id ∉ keysAL s.handlers) (hns : o.id ∉ s.selected) :
    remove s o = some (s, []) := by
  have hkm : o.id ∉ keysAL s.meshes := (lookupAL_eq_none_iff _ _).mp hm
  have hcon : s.selected.contains o.id = false :=
    Bool.eq_false_iff.mpr (fun hc => hns ((contains_iff_mem _ _).mp hc))
  simp [remove, hm, eraseAL_of_not_mem o.id s.meshes hkm,
    eraseAL_of_not_mem o.id s.handlers hkh, hns]

theorem remove_reg_notSel (s : RayState) (o : Mesh) (m : Mesh)
    (hm : lookupAL o.id s.meshes = some m) (hns : o.id ∉ s.selected) :
    remove s o = some (s, []) := by
  have hm' : ¬ lookupAL o.id s.meshes = none := by rw [hm]; simp
  simp [remove, hm', hns]

theorem remove_reg_sel (s : RayState) (o : Mesh) (m : Mesh) (h0 : HandlerSet)
    (hm : lookupAL o.id s.meshes = some m) (hs : o.id ∈ s.selected)
    (hh : lookupAL o.id s.handlers = some h0) :
    remove s o = some ({ s with selected := eraseId o.id s.selected },
      if h0.onDeselect then [Event.onDeselectCall o.id] else []) := by
  have hm' : ¬ lookupAL o.id s.meshes = none := by rw [hm]; simp
  simp [remove, hm', hs, hh]

theorem lengthSq_multiplyScalar (v : Vec3) (k : ℚ) :
    (v.multiplyScalar k).lengthSq = k * k * v.lengthSq := by
  simp [Vec3.multiplyScalar, Vec3.lengthSq]
  ring

theorem rayScaleY_of_sq (s' : RayState) (d : ℚ) (hd : 0 ≤ d)
    (h : s'.rayScaleYSq = d * d) : rayScaleY s' = (d : ℝ) := by
  rw [rayScaleY, h]
  push_cast
  rw [show ((d : ℝ) * d) = (d : ℝ) ^ 2 by ring,
    Real.sqrt_sq (by exact_mod_cast hd)]

theorem moveReticle_camera (x : Option (List ℚ)) (s s2 : RayState)
    (h : moveReticle x s = some s2) : s2.camera = s.camera := by
  rcases x with - | (- | ⟨d, ds⟩)
  · rw [moveReticle] at h
    rw [← Option.some.inj h]
    simp [updateRaycaster]
  · exact absurd h (by simp [moveReticle])
  · rw [moveReticle] at h
    rw [← Option.some.inj h]
    simp [updateRaycaster]

theorem some_pair_fst {α β : Type} {a : α} {b : β} {r : α × β}
    (h : some (a, b) = some r) : r.1 = a := by
  rw [← Option.some.inj h]

theorem some_pair_snd {α β : Type} {a : α} {b : β} {r : α × β}
    (h : some (a, b) = some r) : r.2 = b := by
  rw [← Option.some.inj h]

theorem processMesh_noInter_sel_noh (f : Mesh → List ℚ) (t : RayState)
    (evs : List Event) (j : Nat) (mj : Mesh)
    (hI : f mj = []) (hS : j ∈ t.selected)
    (hh : lookupAL j t.handlers = none) :
    processMesh f t evs j mj = none := by
  simp [processMesh, hI, hS, hh]

theorem processMesh_inter_notSel_noh (f : Mesh → List ℚ) (t : RayState)
    (evs : List Event) (j : Nat) (mj : Mesh) (d : ℚ) (ds : List ℚ)
    (hI : f mj = d :: ds) (hS : j ∉ t.selected)
    (hh : lookupAL j t.handlers = none) :
    processMesh f t evs j mj = none := by
  simp [processMesh, hI, hS, hh]

theorem processMesh_camera (f : Mesh → List ℚ) (t : RayState) (evs : List Event)
    (j : Nat) (mj : Mesh) (r : RayState × List Event)
    (h : processMesh f t evs j mj = some r) : r.1.camera = t.camera := by
  by_cases hI : f mj = []
  · by_cases hS : j ∈ t.selected
    · cases hlk : lookupAL j t.handlers with
      | none =>
        rw [processMesh_noInter_sel_noh f t evs j mj hI hS hlk] at h
        exact absurd h (by simp)
      | some h0 =>
        rw [processMesh_noInter_sel f t evs j mj h0 hI hS hlk] at h
        rw [some_pair_fst h]
        simp [updateRaycaster]
    · rw [processMesh_noInter_notSel f t evs j mj hI hS] at h
      rw [some_pair_fst h]
  · obtain ⟨d, ds, hds⟩ := List.exists_cons_of_ne_nil hI
    by_cases hS : j ∈ t.selected
    · rw [processMesh_inter_sel f t evs j mj d ds hds hS] at h
      rw [some_pair_fst h]
      simp [updateRaycaster]
    · cases hlk : lookupAL j t.handlers with
      | none =>
        rw [processMesh_inter_notSel_noh f t evs j mj d ds hds hS hlk] at h
        exact absurd h (by simp)
      | some h0 =>
        rw [processMesh_inter_notSel f t evs j mj d ds h0 hds hS hlk] at h
        rw [some_pair_fst h]
        simp [updateRaycaster]

theorem updateLoop_camera (f : Mesh → List ℚ) :
    ∀ (L : List (Nat × Mesh)) (t : RayState) (evs : List Event)
      (r : RayState × List Event),
      updateLoop f L t evs = some r → r.1.camera = t.camera
  | [], t, evs, r, h => by
    rw [updateLoop] at h
    rw [some_pair_fst h]
  | (j, mj) :: rest, t, evs, r, h => by
    rw [updateLoop] at h
    cases hp : processMesh f t evs j mj with
    | none =>
      rw [hp] at h
      exact absurd h (by simp)
    | some r1 =>
      rw [hp] at h
      exact (updateLoop_camera f rest r1.1 r1.2 r
        (by rw [← h])).trans (processMesh_camera f t evs j mj r1 hp)

theorem lookupAL_eraseAL_self {α : Type} (id : Nat) :
    ∀ l : List (Nat × α), lookupAL id (eraseAL id l) = none
  | [] => rfl
  | (j, w) :: rest => by
    by_cases hj : j = id
    · simp [eraseAL, hj, lookupAL_eraseAL_self id rest]
    · simp [eraseAL, lookupAL, hj, lookupAL_eraseAL_self id rest]

theorem remove_state_camera (s : RayState) (o : Mesh) (r : RayState × List Event)
    (h : remove s o = some r) : r.1.camera = s.camera := by
  cases hmm : lookupAL o.id s.meshes with
  | none =>
    by_cases hc : o.id ∈ s.selected
    · have hr : remove s o = none := by
        simp [remove, hmm, hc, lookupAL_eraseAL_self]
      rw [hr] at h
      exact absurd h (by simp)
    · have hr : remove s o =
          some ({ s with meshes := eraseAL o.id s.meshes, handlers := eraseAL o.id s.handlers }, []) := by
        simp [remove, hmm, hc]
      rw [hr] at h
      rw [some_pair_fst h]
  | some m =>
    by_cases hc : o.id ∈ s.selected
    · cases hlk : lookupAL o.id s.handlers with
      | none =>
        have hr : remove s o = none := by
          simp [remove, hmm, hc, hlk]
        rw [hr] at h
        exact absurd h (by simp)
      | some h0 =>
        rw [remove_reg_sel s o m h0 hmm hc hlk] at h
        rw [some_pair_fst h]
    · rw [remove_reg_notSel s o m hmm hc] at h
      rw [some_pair_fst h]

theorem alt_count {hc b : Bool} {l : List IdEv} (h : Alt hc b l) :
    ∀ u v w, l = u ++ IdEv.desel :: (v ++ IdEv.desel :: w) → IdEv.desel ∉ v →
      v.count IdEv.sel = 1 ∧ v.count IdEv.call = (if hc then 1 else 0) := by
  induction h with
  | nil =>
    intro u v w hl _
    exact absurd hl.symm (List.append_ne_nil_of_right_ne_nil u (List.cons_ne_nil _ _))
  | selStep h' ih =>
    intro u v w hl hv
    obtain ⟨u', hueq, hl'⟩ :=
      eat_clean_front (selBlock hc) _ u (v ++ IdEv.desel :: w) hl
        (desel_not_mem_selBlock hc)
    exact ih u' v w hl' hv
  | deselStep h' ih =>
    intro u v w hl hv
    cases u with
    | nil =>
      rw [List.nil_append] at hl
      have h2 := (List.cons.injEq _ _ _ _).mp hl
      exact alt_false_first h' v w h2.2 hv
    | cons y u' =>
      have h2 := (List.cons.injEq _ _ _ _).mp hl
      exact ih u' v w h2.2 hv

/-! ### Claim theorems -/

/-- C2 (code bug witness): `remove` of a registered object does NOT clear its
id from the object mapping or the handler mapping.  The guard
`if (!this.meshes[id])` is inverted — its own comment says "If there's no
existing mesh, we can't remove it", yet the deletion only runs in that very
case.  At the failing input (object 1 registered via `add`, not selected),
`remove` returns and both entries are still present. -/
theorem c2_remove_keeps_registered_entry :
    remove sReg meshA = some (c2res.1, c2res.2) ∧
    lookupAL meshA.id c2res.1.meshes = some meshA ∧
    lookupAL meshA.id c2res.1.handlers = some handlersAB := by
  refine ⟨rfl, by decide, by decide⟩

/-- C7: re-registering an already-registered object replaces its stored
handler record (an absent argument yielding the empty record), keeps the
object registered, leaves the selection set untouched, and `add` performs no
callback invocation or event emission. -/
theorem c7_readd_overwrites_handlers (s : RayState) (o : Mesh)
    (h1 h2 : Option HandlerSet) :
    lookupAL o.id (add (add s o h1).1 o h2).1.handlers =
      some (h2.getD emptyHandlers) ∧
    lookupAL o.id (add (add s o h1).1 o h2).1.meshes = some o ∧
    (add (add s o h1).1 o h2).1.selected = s.selected ∧
    (add (add s o h1).1 o h2).2 = [] ∧ (add s o h1).2 = [] := by
  refine ⟨?_, ?_, rfl, rfl, rfl⟩
  · simp [add, lookupAL_insertAL_self]
  · simp [add, lookupAL_insertAL_self]

/-- C8: removing an object whose id is not in the registry is a silent no-op:
the call returns normally (no handler dereference can throw), performs no
callback and emits no event, and the registry and selection set are
unchanged. -/
theorem c8_remove_unregistered_noop (s : RayState) (o : Mesh)
    (hInv : InvC6 s) (hm : lookupAL o.id s.meshes = none) :
    remove s o = some (s, []) := by
  obtain ⟨hmh, hhm, hsel⟩ := hInv
  have hkm : o.id ∉ keysAL s.meshes := (lookupAL_eq_none_iff _ _).mp hm
  exact remove_unreg_eq s o hm (fun hk => hkm (hhm o.id hk))
    (fun hs => hkm (hsel o.id hs))

/-- C8 witness: removing the never-registered object 2 from `sReg`. -/
theorem c8_witness :
    InvC6 sReg ∧ lookupAL meshB.id sReg.meshes = none ∧
      remove sReg meshB = some (sReg, []) :=
  ⟨by decide, by decide,
   c8_remove_unregistered_noop sReg meshB (by decide) (by decide)⟩

/-- C9: `setOrientation(q)` sets the ray direction to the canonical local
forward unit vector (0,0,-1) rotated by q — the inlined THREE component
formula agrees with the canonical quaternion sandwich rotation `q * v * q-conjugate`
for every vector — and refreshes the reticle position and the beam transform
from the new direction before returning, leaving origin and focus distance
unchanged. -/
theorem c9_setOrientation_rotates_forward (s : RayState) (q : Quat) :
    (setOrientation s q).rayDirection = rotateByQuat q (Vec3.mk 0 0 (-1)) ∧
    (∀ v : Vec3, v.applyQuaternion q = rotateByQuat q v) ∧
    (setOrientation s q).reticlePos =
      (((setOrientation s q).rayDirection).multiplyScalar s.reticleDistance).add
        s.rayOrigin ∧
    (setOrientation s q).rayScaleYSq =
      (((setOrientation s q).rayDirection).multiplyScalar
        s.reticleDistance).lengthSq ∧
    (setOrientation s q).rayPos =
      s.rayOrigin.add ((((setOrientation s q).rayDirection).multiplyScalar
        s.reticleDistance).multiplyScalar (1 / 2)) ∧
    (setOrientation s q).rayOrigin = s.rayOrigin ∧
    (setOrientation s q).reticleDistance = s.reticleDistance ∧
    (setOrientation s q).orientation = q := by
  refine ⟨?_, fun v => applyQuaternion_eq_rotateByQuat v q, ?_, ?_, ?_, rfl, rfl, rfl⟩
  · simp [setOrientation, updateRaycaster, applyQuaternion_eq_rotateByQuat]
  · simp [setOrientation, updateRaycaster]
  · simp [setOrientation, updateRaycaster]
  · simp [setOrientation, updateRaycaster]

/-- C10: `setPointer(v)` derives the ray solely from the screen coordinate
and the camera fixed at construction: two states with the same camera yield
identical rays for the same v; cameras that unproject v differently yield
different rays; and no public operation ever replaces the stored camera. -/
theorem c10_setPointer_uses_constructor_camera :
    (∀ s1 s2 : RayState, ∀ v : Vec2, s1.camera = s2.camera →
      (setPointer s1 v).rayOrigin = (setPointer s2 v).rayOrigin ∧
      (setPointer s1 v).rayDirection = (setPointer s2 v).rayDirection) ∧
    (∀ s1 s2 : RayState, ∀ v : Vec2, s1.camera v ≠ s2.camera v →
      ((setPointer s1 v).rayOrigin, (setPointer s1 v).rayDirection) ≠
        ((setPointer s2 v).rayOrigin, (setPointer s2 v).rayDirection)) ∧
    (∀ (s : RayState) (v : Vec2), (setPointer s v).camera = s.camera) ∧
    (∀ (s : RayState) (p : Vec3), (setPosition s p).camera = s.camera) ∧
    (∀ (s : RayState) (q : Quat), (setOrientation s q).camera = s.camera) ∧
    (∀ (s : RayState) (o : Mesh) (h : Option HandlerSet),
      (add s o h).1.camera = s.camera) ∧
    (∀ (s : RayState) (o : Mesh) (r : RayState × List Event),
      remove s o = some r → r.1.camera = s.camera) ∧
    (∀ (s : RayState) (f : Mesh → List ℚ) (r : RayState × List Event),
      update f s = some r → r.1.camera = s.camera) := by
  refine ⟨?_, ?_, fun s v => rfl, fun s p => rfl, fun s q => rfl, fun s o h => rfl,
    remove_state_camera, ?_⟩
  · intro s1 s2 v hc
    constructor
    · simp [setPointer, updateRaycaster, hc]
    · simp [setPointer, updateRaycaster, hc]
  · intro s1 s2 v hne heq
    apply hne
    have h1 := congrArg Prod.fst heq
    have h2 := congrArg Prod.snd heq
    simp only [setPointer, updateRaycaster] at h1 h2
    cases hcv1 : s1.camera v with
    | mk o1 d1 =>
      cases hcv2 : s2.camera v with
      | mk o2 d2 =>
        rw [hcv1, hcv2] at h1 h2
        simp at h1 h2
        rw [h1, h2]
  · intro s f r h
    exact updateLoop_camera f s.meshes s [] r h

/-- C10 witness: two renderers differing only in the constructor camera give
different rays for the same pointer coordinate. -/
theorem c10_witness :
    baseState.camera ⟨0, 0⟩ ≠ (initialState cam1).camera ⟨0, 0⟩ ∧
    ((setPointer baseState ⟨0, 0⟩).rayOrigin,
      (setPointer baseState ⟨0, 0⟩).rayDirection) ≠
      ((setPointer (initialState cam1) ⟨0, 0⟩).rayOrigin,
        (setPointer (initialState cam1) ⟨0, 0⟩).rayDirection) :=
  ⟨by decide,
   c10_setPointer_uses_constructor_camera.2.1 baseState (initialState cam1)
     ⟨0, 0⟩ (by decide)⟩

/-- C4: if an update cycle performs a deselect transition (the selection set
was non-empty at cycle start) and no object at all is intersected in that
cycle, the reticle distance is reset to the default constant 3 and the
reticle position ends at origin + direction * 3. -/
theorem c4_default_distance_on_deselect (s : RayState) (f : Mesh → List ℚ)
    (hWF : WF s) (hmiss : ∀ p ∈ s.meshes, f p.2 = []) (hne : s.selected ≠ []) :
    ∃ s' evs, update f s = some (s', evs) ∧
      s'.reticleDistance = 3 ∧
      s'.reticlePos = (s.rayDirection.multiplyScalar 3).add s.rayOrigin := by
  obtain ⟨hkeys, hsel, hnd⟩ := hWF
  have hcov : ∀ p ∈ s.meshes, ∃ h0, lookupAL p.1 s.handlers = some h0 := by
    intro p hp
    have h1 : p.1 ∈ keysAL s.handlers := by
      rw [← hkeys]
      exact mem_keysAL_of_mem hp
    exact Option.isSome_iff_exists.mp ((lookupAL_isSome_iff p.1 s.handlers).mpr h1)
  obtain ⟨t', evs', hloop, ho', hd', hrd', hrp'⟩ :=
    updateLoop_noInter f s.meshes s [] hcov hmiss
  obtain ⟨i0, hi0⟩ := List.exists_mem_of_ne_nil s.selected hne
  have hi0k : i0 ∈ keysAL s.meshes := hsel i0 hi0
  obtain ⟨p0, hp0m, hp0⟩ :=
    List.mem_map.mp (show i0 ∈ List.map Prod.fst s.meshes from hi0k)
  have hany : (s.meshes.any fun p => s.selected.contains p.1) = true := by
    rw [List.any_eq_true]
    exact ⟨p0, hp0m, by rw [hp0]; exact (contains_iff_mem _ _).mpr hi0⟩
  refine ⟨t', evs', hloop, ?_, ?_⟩
  · rw [hrd', if_pos hany]
    rfl
  · rw [hrp', if_pos hany]
    rfl

/-- C4 witness: object 1 selected, nothing hit, one update cycle. -/
theorem c4_witness :
    WF sSel ∧ sSel.selected ≠ [] ∧
    (∃ s' evs, update fMiss sSel = some (s', evs) ∧
      s'.reticleDistance = 3 ∧
      s'.reticlePos = (sSel.rayDirection.multiplyScalar 3).add sSel.rayOrigin) :=
  ⟨by decide, by decide,
   c4_default_distance_on_deselect sSel fMiss (by decide) (by decide) (by decide)⟩

/-- C5 counterexample: removing the selected registered object 1 from `sSel`
fires `onDeselect` once and clears the selection set, but the registry entry
is never dropped — the drop the claim sequences "before" does not occur
(inverted guard, see C2). -/
theorem c5_entry_not_dropped :
    remove sSel meshA = some (c5res.1, c5res.2) ∧
    c5res.2 = [Event.onDeselectCall 1] ∧
    c5res.1.selected = [] ∧
    getSelectedMesh c5res.1 = none ∧
    lookupAL 1 c5res.1.meshes = some meshA ∧
    lookupAL 1 c5res.1.handlers = some handlersAB :=
  ⟨rfl, by decide, by decide, by decide, by decide, by decide⟩

/-- C5 (amended): removing a currently selected, registered object invokes
its `onDeselect` handler exactly once when present (and not at all when
absent), removes its id from the selection set, and — with no other object
selected — a subsequent `getSelectedMesh` returns none.  The registry entry
itself is not dropped (inverted guard, see C2): both registry maps are
unchanged. -/
theorem c5_remove_selected_deselects (s : RayState) (o : Mesh) (m : Mesh)
    (h0 : HandlerSet)
    (hm : lookupAL o.id s.meshes = some m)
    (hh : lookupAL o.id s.handlers = some h0)
    (hsel : s.selected = [o.id]) :
    ∃ s' evs, remove s o = some (s', evs) ∧
      evs.count (Event.onDeselectCall o.id) = (if h0.onDeselect then 1 else 0) ∧
      o.id ∉ s'.selected ∧
      getSelectedMesh s' = none ∧
      s'.meshes = s.meshes ∧ s'.handlers = s.handlers := by
  have hs : o.id ∈ s.selected := by
    rw [hsel]
    exact List.mem_cons_self _ _
  refine ⟨{ s with selected := eraseId o.id s.selected },
    (if h0.onDeselect then [Event.onDeselectCall o.id] else []),
    remove_reg_sel s o m h0 hm hs hh, ?_, ?_, ?_, rfl, rfl⟩
  · cases hd : h0.onDeselect <;> simp [hd]
  · simp [mem_eraseId]
  · have hemp : eraseId o.id s.selected = [] := by
      rw [hsel]
      simp [eraseId]
    simp [getSelectedMesh, hemp]

/-- C5 witness for the amended claim, at `sSel`. -/
theorem c5_witness :
    lookupAL meshA.id sSel.meshes = some meshA ∧
    lookupAL meshA.id sSel.handlers = some handlersAB ∧
    sSel.selected = [meshA.id] ∧
    (∃ s' evs, remove sSel meshA = some (s', evs) ∧
      evs.count (Event.onDeselectCall meshA.id) =
        (if handlersAB.onDeselect then 1 else 0) ∧
      meshA.id ∉ s'.selected ∧ getSelectedMesh s' = none ∧
      s'.meshes = sSel.meshes ∧ s'.handlers = sSel.handlers) :=
  ⟨by decide, by decide, by decide,
   c5_remove_selected_deselects sSel meshA meshA handlersAB
     (by decide) (by decide) (by decide)⟩

/-- C3 counterexample: object 1 is the sole intersected object, at distance
2, but the previously selected object 2 deselects later in the iteration and
resets the reticle to the default distance 3, so the final reticle position
is origin + direction·3, not origin + direction·2 as the claim states. -/
theorem c3_deselect_overrides_sole_hit :
    fOnlyA meshA = [2] ∧ fOnlyA meshB = [] ∧ sC3.selected = [2] ∧
    update fOnlyA sC3 = some (c3cex.1, c3cex.2) ∧
    c3cex.1.reticleDistance = 3 ∧
    c3cex.1.reticlePos ≠ (sC3.rayDirection.multiplyScalar 2).add sC3.rayOrigin := by
  refine ⟨by decide, by decide, by decide, rfl, by decide, ?_⟩
  have h1 : c3cex.1.reticlePos =
      (sC3.rayDirection.multiplyScalar 3).add sC3.rayOrigin := rfl
  have hdz : sC3.rayDirection.z = -1 := rfl
  have hoz : sC3.rayOrigin.z = 0 := rfl
  rw [h1]
  intro h
  have hz := congrArg Vec3.z h
  simp only [Vec3.multiplyScalar, Vec3.add, hdz, hoz] at hz
  norm_num at hz

/-- C3 (amended): if object O is the sole intersected object of the cycle,
with nearest-hit distance D ≥ 0, the ray direction is a unit vector, and no
object other than O was selected when the cycle started, then after the
cycle the reticle distance equals D, the reticle position equals
origin + direction·D, the beam y-scale equals D, and the beam midpoint
equals origin + (direction·D)·0.5. -/
theorem c3_sole_intersection_places_reticle (s : RayState) (f : Mesh → List ℚ)
    (O : Nat) (m0 : Mesh) (D : ℚ) (ds : List ℚ)
    (hWF : WF s)
    (hO : lookupAL O s.meshes = some m0)
    (hfO : f m0 = D :: ds)
    (hsole : ∀ p ∈ s.meshes, p.1 ≠ O → f p.2 = [])
    (hnoother : ∀ i ∈ s.selected, i = O)
    (hD : 0 ≤ D) (hdir : s.rayDirection.lengthSq = 1) :
    ∃ s' evs, update f s = some (s', evs) ∧
      s'.reticleDistance = D ∧
      s'.reticlePos = (s.rayDirection.multiplyScalar D).add s.rayOrigin ∧
      rayScaleY s' = (D : ℝ) ∧
      s'.rayPos = s.rayOrigin.add
        ((s.rayDirection.multiplyScalar D).multiplyScalar (1 / 2)) := by
  obtain ⟨hkeys, hselw, hnd⟩ := hWF
  obtain ⟨L1, L2, hdecomp⟩ := List.append_of_mem (lookupAL_some_mem O m0 s.meshes hO)
  have hndk : (keysAL L1 ++ O :: keysAL L2).Nodup := by
    have h1 := hnd
    rw [hdecomp] at h1
    simpa [keysAL] using h1
  have hOL1 : O ∉ keysAL L1 := by
    intro hmem
    exact (List.nodup_append.mp hndk).2.2 hmem (List.mem_cons_self _ _)
  have hOL2 : O ∉ keysAL L2 := by
    have h2 := (List.nodup_append.mp hndk).2.1
    rw [List.nodup_cons] at h2
    exact h2.1
  obtain ⟨h0, hOh⟩ : ∃ h0, lookupAL O s.handlers = some h0 := by
    have h1 : O ∈ keysAL s.handlers := by
      rw [← hkeys]
      exact (lookupAL_isSome_iff O s.meshes).mp (by rw [hO]; rfl)
    exact Option.isSome_iff_exists.mp ((lookupAL_isSome_iff O s.handlers).mpr h1)
  have hnoop1 : ∀ p ∈ L1, f p.2 = [] ∧ p.1 ∉ s.selected := by
    intro p hp
    have hpm : p ∈ s.meshes := by
      rw [hdecomp]
      exact List.mem_append_left _ hp
    have hpne : p.1 ≠ O := fun hpe => hOL1 (hpe ▸ mem_keysAL_of_mem hp)
    exact ⟨hsole p hpm hpne, fun hmem => hpne (hnoother p.1 hmem)⟩
  have hrun1 : updateLoop f s.meshes s [] = updateLoop f ((O, m0) :: L2) s [] := by
    rw [hdecomp, updateLoop_append, updateLoop_noop f L1 s [] hnoop1]
  have hL2ne : ∀ p ∈ L2, p.1 ≠ O ∧ f p.2 = [] := by
    intro p hp
    have hpm : p ∈ s.meshes := by
      rw [hdecomp]
      exact List.mem_append_right _ (List.mem_cons_of_mem _ hp)
    have hpne : p.1 ≠ O := fun hpe => hOL2 (hpe ▸ mem_keysAL_of_mem hp)
    exact ⟨hpne, hsole p hpm hpne⟩
  by_cases hOS : O ∈ s.selected
  · have hnoop2 : ∀ p ∈ L2, f p.2 = [] ∧
        p.1 ∉ (updateRaycaster { s with reticleDistance := D }).selected := by
      intro p hp
      refine ⟨(hL2ne p hp).2, fun hmem => ?_⟩
      have hps : p.1 ∈ s.selected := by simpa [updateRaycaster] using hmem
      exact (hL2ne p hp).1 (hnoother p.1 hps)
    refine ⟨updateRaycaster { s with reticleDistance := D }, [], ?_, ?_, ?_, ?_, ?_⟩
    · show updateLoop f s.meshes s [] = _
      rw [hrun1, updateLoop, processMesh_inter_sel f s [] O m0 D ds hfO hOS]
      exact updateLoop_noop f L2 _ [] hnoop2
    · simp [updateRaycaster]
    · simp [updateRaycaster]
    · refine rayScaleY_of_sq _ D hD ?_
      simp [updateRaycaster, lengthSq_multiplyScalar, hdir]
    · simp [updateRaycaster]
  · have hnoop2 : ∀ p ∈ L2, f p.2 = [] ∧
        p.1 ∉ (updateRaycaster { s with selected := insertId O s.selected, reticleDistance := D }).selected := by
      intro p hp
      refine ⟨(hL2ne p hp).2, fun hmem => ?_⟩
      have hps : p.1 ∈ insertId O s.selected := by
        simpa [updateRaycaster] using hmem
      rcases (mem_insertId p.1 O s.selected).mp hps with hin | hin
      · exact (hL2ne p hp).1 (hnoother p.1 hin)
      · exact (hL2ne p hp).1 hin
    refine ⟨updateRaycaster { s with selected := insertId O s.selected, reticleDistance := D },
      [] ++ (if h0.onSelect then [Event.onSelectCall O] else [])
         ++ [Event.selectEmit O], ?_, ?_, ?_, ?_, ?_⟩
    · show updateLoop f s.meshes s [] = _
      rw [hrun1, updateLoop,
        processMesh_inter_notSel f s [] O m0 D ds h0 hfO hOS hOh]
      exact updateLoop_noop f L2 _ _ hnoop2
    · simp [updateRaycaster]
    · simp [updateRaycaster]
    · refine rayScaleY_of_sq _ D hD ?_
      simp [updateRaycaster, lengthSq_multiplyScalar, hdir]
    · simp [updateRaycaster]

theorem baseDir_lengthSq : sReg.rayDirection.lengthSq = 1 := by
  rw [show sReg.rayDirection = Vec3.mk 0 0 (-1) from rfl]
  simp [Vec3.lengthSq]

/-- C3 witness for the amended claim: object 1 registered and hit at distance
2, default ray direction (0,0,-1). -/
theorem c3_witness :
    WF sReg ∧ lookupAL 1 sReg.meshes = some meshA ∧ fOnlyA meshA = [2] ∧
    (0 : ℚ) ≤ 2 ∧ sReg.rayDirection.lengthSq = 1 ∧
    (∃ s' evs, update fOnlyA sReg = some (s', evs) ∧
      s'.reticleDistance = 2 ∧
      s'.reticlePos = (sReg.rayDirection.multiplyScalar 2).add sReg.rayOrigin ∧
      rayScaleY s' = ((2 : ℚ) : ℝ) ∧
      s'.rayPos = sReg.rayOrigin.add
        ((sReg.rayDirection.multiplyScalar 2).multiplyScalar (1 / 2))) :=
  ⟨by decide, by decide, by decide, by decide, baseDir_lengthSq,
   c3_sole_intersection_places_reticle sReg fOnlyA 1 meshA 2 []
     (by decide) (by decide) (by decide) (by decide) (by decide)
     (by decide) baseDir_lengthSq⟩

/-- C6: the registry/selection consistency invariant — every selected id is in
the object mapping, and the object and handler mappings carry the same ids —
is preserved by `add`, by `remove` and by `update`. -/
theorem c6_invariant_preserved (s : RayState) (hInv : InvC6 s) :
    (∀ (o : Mesh) (h : Option HandlerSet), InvC6 (add s o h).1) ∧
    (∀ (o : Mesh) (r : RayState × List Event), remove s o = some r → InvC6 r.1) ∧
    (∀ (f : Mesh → List ℚ) (r : RayState × List Event),
      update f s = some r → InvC6 r.1) := by
  obtain ⟨hmh, hhm, hsel⟩ := hInv
  refine ⟨?_, ?_, ?_⟩
  · intro o h
    refine ⟨?_, ?_, ?_⟩
    · intro i hi
      rw [show (add s o h).1.meshes = insertAL o.id o s.meshes from rfl,
        keysAL_insertAL] at hi
      rw [show (add s o h).1.handlers =
        insertAL o.id (h.getD emptyHandlers) s.handlers from rfl, keysAL_insertAL]
      rcases (mem_keysIns _ _ _).mp hi with h1 | h1
      · exact (mem_keysIns _ _ _).mpr (Or.inl h1)
      · exact (mem_keysIns _ _ _).mpr (Or.inr (hmh i h1))
    · intro i hi
      rw [show (add s o h).1.handlers =
        insertAL o.id (h.getD emptyHandlers) s.handlers from rfl,
        keysAL_insertAL] at hi
      rw [show (add s o h).1.meshes = insertAL o.id o s.meshes from rfl,
        keysAL_insertAL]
      rcases (mem_keysIns _ _ _).mp hi with h1 | h1
      · exact (mem_keysIns _ _ _).mpr (Or.inl h1)
      · exact (mem_keysIns _ _ _).mpr (Or.inr (hhm i h1))
    · intro i hi
      rw [show (add s o h).1.meshes = insertAL o.id o s.meshes from rfl,
        keysAL_insertAL]
      exact (mem_keysIns _ _ _).mpr (Or.inr (hsel i hi))
  · intro o r hr
    cases hmm : lookupAL o.id s.meshes with
    | none =>
      have hkm : o.id ∉ keysAL s.meshes := (lookupAL_eq_none_iff _ _).mp hmm
      have hre := remove_unreg_eq s o hmm (fun hk => hkm (hhm o.id hk))
        (fun hs => hkm (hsel o.id hs))
      rw [hre] at hr
      rw [some_pair_fst hr]
      exact ⟨hmh, hhm, hsel⟩
    | some m =>
      by_cases hc : o.id ∈ s.selected
      · cases hlk : lookupAL o.id s.handlers with
        | none =>
          have h1 : o.id ∈ keysAL s.handlers := hmh o.id (hsel o.id hc)
          exact absurd ((lookupAL_isSome_iff _ _).mpr h1) (by rw [hlk]; simp)
        | some h0 =>
          rw [remove_reg_sel s o m h0 hmm hc hlk] at hr
          rw [some_pair_fst hr]
          refine ⟨hmh, hhm, ?_⟩
          intro i hi
          exact hsel i ((mem_eraseId i o.id s.selected).mp hi).1
      · rw [remove_reg_notSel s o m hmm hc] at hr
        rw [some_pair_fst hr]
        exact ⟨hmh, hhm, hsel⟩
  · intro f r hr
    have hcov : ∀ p ∈ s.meshes, ∃ h0, lookupAL p.1 s.handlers = some h0 := by
      intro p hp
      have h1 : p.1 ∈ keysAL s.handlers := hmh p.1 (mem_keysAL_of_mem hp)
      exact Option.isSome_iff_exists.mp ((lookupAL_isSome_iff _ _).mpr h1)
    obtain ⟨t', evs', hloop, hcam, hm', hha', hsub⟩ :=
      updateLoop_basic f s.meshes s [] hcov
    rw [show update f s = updateLoop f s.meshes s [] from rfl, hloop] at hr
    have hrt : t' = r.1 := congrArg Prod.fst (Option.some.inj hr)
    rw [← hrt]
    refine ⟨?_, ?_, ?_⟩
    · intro i hi
      rw [hha']
      rw [hm'] at hi
      exact hmh i hi
    · intro i hi
      rw [hm']
      rw [hha'] at hi
      exact hhm i hi
    · intro i hi
      rw [hm']
      rcases hsub i hi with h1 | h1
      · exact hsel i h1
      · exact h1

/-- C6 witness: the invariant holds at `sSel` and survives an `add`. -/
theorem c6_witness :
    InvC6 sSel ∧ InvC6 (add sSel meshB (some emptyHandlers)).1 :=
  ⟨by decide,
   (c6_invariant_preserved sSel (by decide)).1 meshB (some emptyHandlers)⟩

/-- C1: over any sequence of update cycles started from a well-formed state,
between any two consecutive `deselect` emissions for an object there is
exactly one `select` emission — and exactly one `onSelect` invocation when
that object's handler record carries `onSelect`, none when it does not. -/
theorem c1_exactly_once_between_deselects
    (fs : List (Mesh → List ℚ)) (s s' : RayState) (evs : List Event) (i : Nat)
    (u v w : List IdEv)
    (hWF : WF s) (hrun : runUpdates fs s = some (s', evs))
    (hdec : idEvs i evs = u ++ IdEv.desel :: (v ++ IdEv.desel :: w))
    (hv : IdEv.desel ∉ v) :
    v.count IdEv.sel = 1 ∧
    v.count IdEv.call = (if hcOf i s.handlers then 1 else 0) := by
  obtain ⟨-, hAlt⟩ := runUpdates_alt i fs s s' evs hWF hrun
  exact alt_count hAlt u v w hdec hv

/-- C1 witness: two full select/deselect rounds of object 1. -/
theorem c1_witness :
    WF sReg ∧
    runUpdates fsW1 sReg = some (c1res.1, c1res.2) ∧
    idEvs 1 c1res.2 =
      [IdEv.call, IdEv.sel] ++ IdEv.desel ::
        ([IdEv.call, IdEv.sel] ++ IdEv.desel :: ([] : List IdEv)) ∧
    IdEv.desel ∉ [IdEv.call, IdEv.sel] ∧
    [IdEv.call, IdEv.sel].count IdEv.sel = 1 ∧
    [IdEv.call, IdEv.sel].count IdEv.call = (if hcOf 1 sReg.handlers then 1 else 0) :=
  ⟨by decide, rfl, by decide, by decide,
   (c1_exactly_once_between_deselects fsW1 sReg c1res.1 c1res.2 1
     [IdEv.call, IdEv.sel] [IdEv.call, IdEv.sel] []
     (by decide) rfl (by decide) (by decide)).1,
   (c1_exactly_once_between_deselects fsW1 sReg c1res.1 c1res.2 1
     [IdEv.call, IdEv.sel] [IdEv.call, IdEv.sel] []
     (by decide) rfl (by decide) (by decide)).2⟩
